import Mathlib

/-!
Shallow embedding of `changify/ard.py` (repository klsmith-usgs/changify).

Numeric values (Python `int`/`float`, the `Num` union in the source) are
modelled as rationals `ℚ`; pixel/tile indices produced by the transforms are
Python `int`s, modelled as `ℤ`.  Strings are modelled as `List Char`.
Python operations used by the source are embedded explicitly:
`int(x)` on a number truncates toward zero (`truncQ`), `x // y` on numbers is
floor division (`pyFloorDiv`), `s[:-4]` drops the last four characters,
`s.split(c)` splits on every occurrence of the separator keeping empty parts,
`int(s)` on a string parses an optional sign followed by decimal digits and
raises otherwise (modelled with `Option`).
-/

set_option maxRecDepth 4000

namespace Changify

/-- Python `int(q)` on a number: truncation toward zero. -/
def truncQ (q : ℚ) : ℤ :=
  if 0 ≤ q then ⌊q⌋ else -⌊-q⌋

/-- Python floor division `a // b` on numbers (result kept in ℚ, as Python
keeps a float when either operand is a float). -/
def pyFloorDiv (a b : ℚ) : ℚ :=
  (⌊a / b⌋ : ℤ)

/-- `class GeoExtent(NamedTuple)` — field order xmin, ymax, xmax, ymin. -/
structure GeoExtent where
  xmin : ℚ
  ymax : ℚ
  xmax : ℚ
  ymin : ℚ
deriving DecidableEq

/-- `class GeoCoordinate(NamedTuple)`. -/
structure GeoCoordinate where
  x : ℚ
  y : ℚ
deriving DecidableEq

/-- `class RowColumn(NamedTuple)`. -/
structure RowColumn where
  row : ℤ
  column : ℤ
deriving DecidableEq

/-- `class RowColumnExtent(NamedTuple)` — st_row, st_col, end_row, end_col. -/
structure RowColumnExtent where
  st_row : ℤ
  st_col : ℤ
  end_row : ℤ
  end_col : ℤ
deriving DecidableEq

/-- The 6-coefficient affine tuple `(a0, a1, a2, a3, a4, a5)` used throughout
`ard.py` (the docstrings call it GeoAffine: ulx, xres, rot1, uly, rot2, yres). -/
structure GeoAffine where
  a0 : ℚ
  a1 : ℚ
  a2 : ℚ
  a3 : ℚ
  a4 : ℚ
  a5 : ℚ
deriving DecidableEq

/-- `ard_hv(h, v, extent)`:
xmin = extent[0] + h * 5000 * 30, xmax = extent[0] + h * 5000 * 30 + 5000 * 30,
ymax = extent[1] - v * 5000 * 30, ymin = extent[1] - v * 5000 * 30 - 5000 * 30;
returns `(GeoExtent(xmin, ymax, xmax, ymin), (xmin, 30, 0, ymax, 0, -30))`. -/
def ard_hv (h v : ℤ) (extent : GeoExtent) : GeoExtent × GeoAffine :=
  let xmin : ℚ := extent.xmin + h * 5000 * 30
  let xmax : ℚ := extent.xmin + h * 5000 * 30 + 5000 * 30
  let ymax : ℚ := extent.ymax - v * 5000 * 30
  let ymin : ℚ := extent.ymax - v * 5000 * 30 - 5000 * 30
  (⟨xmin, ymax, xmax, ymin⟩, ⟨xmin, 30, 0, ymax, 0, -30⟩)

/-- `fifteen_offset(val) = int(val // 30) * 30 + 15`. -/
def fifteen_offset (val : ℚ) : ℤ :=
  truncQ (pyFloorDiv val 30) * 30 + 15

/-- `transform_geo(coord, affine)`:
col = (coord[0] - affine[0] - affine[3] * affine[2]) / affine[1],
row = (coord[1] - affine[3] - affine[0] * affine[4]) / affine[5],
returned as `RowColumn(int(row), int(col))`. -/
def transform_geo (coord : GeoCoordinate) (affine : GeoAffine) : RowColumn :=
  let col : ℚ := (coord.x - affine.a0 - affine.a3 * affine.a2) / affine.a1
  let row : ℚ := (coord.y - affine.a3 - affine.a0 * affine.a4) / affine.a5
  ⟨truncQ row, truncQ col⟩

/-- `transform_rc(rowcol, affine)`:
x = affine[0] + rowcol[1] * affine[1] + rowcol[0] * affine[2],
y = affine[3] + rowcol[1] * affine[4] + rowcol[0] * affine[5]. -/
def transform_rc (rowcol : RowColumn) (affine : GeoAffine) : GeoCoordinate :=
  ⟨affine.a0 + rowcol.column * affine.a1 + rowcol.row * affine.a2,
   affine.a3 + rowcol.column * affine.a4 + rowcol.row * affine.a5⟩

/-- `determine_hv(coord, aff) = transform_geo(coord, aff)[::-1]` — the
`(row, column)` tuple reversed, giving `(column, row)` as `(h, v)`. -/
def determine_hv (coord : GeoCoordinate) (aff : GeoAffine) : ℤ × ℤ :=
  let rc := transform_geo coord aff
  (rc.column, rc.row)

/-- `chipul(coord, chip_aff) = transform_rc(transform_geo(coord, chip_aff), chip_aff)`. -/
def chipul (coord : GeoCoordinate) (chip_aff : GeoAffine) : GeoCoordinate :=
  transform_rc (transform_geo coord chip_aff) chip_aff

/-! Helper lemmas about truncation toward zero. -/

theorem truncQ_intCast (k : ℤ) : truncQ (k : ℚ) = k := by
  unfold truncQ
  rcases le_or_lt 0 (k : ℚ) with hk | hk
  · rw [if_pos hk, Int.floor_intCast]
  · rw [if_neg (not_le.mpr hk), ← Int.cast_neg, Int.floor_intCast, neg_neg]

theorem truncQ_of_nonneg {q : ℚ} (hq : 0 ≤ q) : truncQ q = ⌊q⌋ :=
  if_pos hq

theorem truncQ_eq_floor_or_ceil (q : ℚ) :
    truncQ q = if 0 ≤ q then ⌊q⌋ else ⌈q⌉ := by
  unfold truncQ
  rcases le_or_lt 0 q with hq | hq
  · rw [if_pos hq, if_pos hq]
  · rw [if_neg (not_le.mpr hq), if_neg (not_le.mpr hq), Int.floor_neg, neg_neg]

/-- C1: for every h, v and reference extent, `ard_hv(h, v, ref)` returns the extent
with xmin = ref.xmin + h*150000, xmax = xmin + 150000, ymax = ref.ymax - v*150000,
ymin = ymax - 150000, together with the affine (xmin, 30, 0, ymax, 0, -30); in
particular `ard_hv(5, 2, GeoExtent(-2565585, 3314805, 2384415, 14805))` returns
extent (-1815585, 3014805, -1665585, 2864805) and affine (-1815585, 30, 0, 3014805, 0, -30). -/
theorem ard_hv_formula (h v : ℤ) (ref : GeoExtent) :
    (ard_hv h v ref).1.xmin = ref.xmin + h * 150000 ∧
    (ard_hv h v ref).1.xmax = (ard_hv h v ref).1.xmin + 150000 ∧
    (ard_hv h v ref).1.ymax = ref.ymax - v * 150000 ∧
    (ard_hv h v ref).1.ymin = (ard_hv h v ref).1.ymax - 150000 ∧
    (ard_hv h v ref).2 =
      ⟨(ard_hv h v ref).1.xmin, 30, 0, (ard_hv h v ref).1.ymax, 0, -30⟩ ∧
    ard_hv 5 2 ⟨-2565585, 3314805, 2384415, 14805⟩ =
      (⟨-1815585, 3014805, -1665585, 2864805⟩, ⟨-1815585, 30, 0, 3014805, 0, -30⟩) := by
  refine ⟨?_, ?_, ?_, ?_, ?_, ?_⟩
  · show ref.xmin + (h : ℚ) * 5000 * 30 = ref.xmin + h * 150000
    ring
  · show ref.xmin + (h : ℚ) * 5000 * 30 + 5000 * 30 = ref.xmin + h * 5000 * 30 + 150000
    ring
  · show ref.ymax - (v : ℚ) * 5000 * 30 = ref.ymax - v * 150000
    ring
  · show ref.ymax - (v : ℚ) * 5000 * 30 - 5000 * 30 = ref.ymax - v * 5000 * 30 - 150000
    ring
  · rfl
  · norm_num [ard_hv]

/-- C3: `transform_geo` computes col = (x - a0 - a3*a2)/a1 and
row = (y - a3 - a0*a4)/a5, each truncated toward zero (floor for non-negative
quotients, ceiling for negative quotients, never plain rounding or flooring);
in particular with affine (-1815585, 30, 0, 3014805, 0, -30) and coordinate
(-1701195, 3005565) it returns row = 308 and column = 3813. -/
theorem transform_geo_formula (coord : GeoCoordinate) (affine : GeoAffine)
    (h1 : affine.a1 ≠ 0) (h5 : affine.a5 ≠ 0) :
    transform_geo coord affine =
      { row := if 0 ≤ (coord.y - affine.a3 - affine.a0 * affine.a4) / affine.a5
               then ⌊(coord.y - affine.a3 - affine.a0 * affine.a4) / affine.a5⌋
               else ⌈(coord.y - affine.a3 - affine.a0 * affine.a4) / affine.a5⌉,
        column := if 0 ≤ (coord.x - affine.a0 - affine.a3 * affine.a2) / affine.a1
                  then ⌊(coord.x - affine.a0 - affine.a3 * affine.a2) / affine.a1⌋
                  else ⌈(coord.x - affine.a0 - affine.a3 * affine.a2) / affine.a1⌉ } ∧
    transform_geo ⟨-1701195, 3005565⟩ ⟨-1815585, 30, 0, 3014805, 0, -30⟩ = ⟨308, 3813⟩ := by
  constructor
  · simp only [transform_geo, truncQ_eq_floor_or_ceil]
  · norm_num [transform_geo, truncQ]

/-- Witness for C3: the theorem applied at the concrete affine and coordinate of
the repository's own test suite. -/
theorem transform_geo_formula_witness :
    transform_geo ⟨-1701195, 3005565⟩ ⟨-1815585, 30, 0, 3014805, 0, -30⟩ = ⟨308, 3813⟩ :=
  (transform_geo_formula ⟨-1701195, 3005565⟩ ⟨-1815585, 30, 0, 3014805, 0, -30⟩
    (by norm_num) (by norm_num)).2

/-- C5: `fifteen_offset(v)` equals floor(v / 30) * 30 + 15 for every value, and in
particular fifteen_offset 0 = 15, 1 ↦ 15, -1 ↦ -15, 29 ↦ 15, 30 ↦ 45. -/
theorem fifteen_offset_formula :
    (∀ val : ℚ, fifteen_offset val = ⌊val / 30⌋ * 30 + 15) ∧
    fifteen_offset 0 = 15 ∧ fifteen_offset 1 = 15 ∧ fifteen_offset (-1) = -15 ∧
    fifteen_offset 29 = 15 ∧ fifteen_offset 30 = 45 := by
  refine ⟨fun val => ?_, ?_, ?_, ?_, ?_, ?_⟩
  · unfold fifteen_offset pyFloorDiv
    rw [truncQ_intCast]
  all_goals norm_num [fifteen_offset, pyFloorDiv, truncQ]

/-- C6: `determine_hv` returns the (row, column) pair of `transform_geo` with the
two components swapped — (h, v) = (column, row); concretely, for the test
coordinate and the CONUS grid affine, transform_geo gives (row=2, column=5) and
determine_hv gives (5, 2). -/
theorem determine_hv_swap :
    (∀ (coord : GeoCoordinate) (aff : GeoAffine),
        determine_hv coord aff =
          ((transform_geo coord aff).column, (transform_geo coord aff).row)) ∧
    transform_geo ⟨-1701195, 3005565⟩ ⟨-2565585, 150000, 0, 3314805, 0, -150000⟩ = ⟨2, 5⟩ ∧
    determine_hv ⟨-1701195, 3005565⟩ ⟨-2565585, 150000, 0, 3314805, 0, -150000⟩ = (5, 2) := by
  refine ⟨fun coord aff => rfl, ?_, ?_⟩ <;>
    norm_num [determine_hv, transform_geo, truncQ]

/-- Helper: a truncated quotient equals the floor when the quotient is
bracketed by a non-negative integer n: n < q < n+1 forces truncQ q = n. -/
theorem truncQ_eq_of_between {q : ℚ} {n : ℤ} (hn : 0 ≤ n)
    (hlo : (n : ℚ) < q) (hhi : q < n + 1) : truncQ q = n := by
  have hq : 0 ≤ q := le_trans (by exact_mod_cast hn) (le_of_lt hlo)
  rw [truncQ_of_nonneg hq]
  rw [Int.floor_eq_iff]
  constructor
  · exact le_of_lt hlo
  · exact_mod_cast hhi

/-- C2: for every h, v ≥ 0, reference extent and point strictly interior to the
extent returned by `ard_hv(h, v, ref)`, `determine_hv` at the grid-level affine
(ref.xmin, 150000, 0, ref.ymax, 0, -150000) recovers exactly (h, v). -/
theorem determine_hv_roundtrip (h v : ℤ) (ref : GeoExtent) (c : GeoCoordinate)
    (hh : 0 ≤ h) (hv : 0 ≤ v)
    (hx1 : (ard_hv h v ref).1.xmin < c.x) (hx2 : c.x < (ard_hv h v ref).1.xmax)
    (hy1 : (ard_hv h v ref).1.ymin < c.y) (hy2 : c.y < (ard_hv h v ref).1.ymax) :
    determine_hv c ⟨ref.xmin, 150000, 0, ref.ymax, 0, -150000⟩ = (h, v) := by
  simp only [ard_hv] at hx1 hx2 hy1 hy2
  have h150 : (0 : ℚ) < 150000 := by norm_num
  unfold determine_hv transform_geo
  simp only [Prod.mk.injEq]
  constructor
  · refine truncQ_eq_of_between hh ?_ ?_
    · rw [lt_div_iff₀ h150]
      nlinarith [hx1]
    · rw [div_lt_iff₀ h150]
      nlinarith [hx2]
  · have hrow : (c.y - (⟨ref.xmin, 150000, 0, ref.ymax, 0, -150000⟩ : GeoAffine).a3 -
        (⟨ref.xmin, 150000, 0, ref.ymax, 0, -150000⟩ : GeoAffine).a0 *
        (⟨ref.xmin, 150000, 0, ref.ymax, 0, -150000⟩ : GeoAffine).a4) /
        (⟨ref.xmin, 150000, 0, ref.ymax, 0, -150000⟩ : GeoAffine).a5 =
        (ref.ymax - c.y) / 150000 := by
      show (c.y - ref.ymax - ref.xmin * 0) / (-150000) = (ref.ymax - c.y) / 150000
      ring
    rw [hrow]
    refine truncQ_eq_of_between hv ?_ ?_
    · rw [lt_div_iff₀ h150]
      nlinarith [hy2]
    · rw [div_lt_iff₀ h150]
      nlinarith [hy1]

/-- Witness for C2: tile (5, 2) of the CONUS reference extent and the interior
point (-1700000, 2900000). -/
theorem determine_hv_roundtrip_witness :
    determine_hv ⟨-1700000, 2900000⟩ ⟨-2565585, 150000, 0, 3314805, 0, -150000⟩ = (5, 2) :=
  determine_hv_roundtrip 5 2 ⟨-2565585, 3314805, 2384415, 14805⟩ ⟨-1700000, 2900000⟩
    (by norm_num) (by norm_num) (by norm_num [ard_hv]) (by norm_num [ard_hv])
    (by norm_num [ard_hv]) (by norm_num [ard_hv])

/-- Helper shared by the round-trip facts: with zero rotation terms, a point of
the form (a0 + c*a1, a3 + r*a5) with integer c, r is a fixed point of
`transform_rc ∘ transform_geo` (that is, of `chipul`). -/
theorem chipul_fixed_point (aff : GeoAffine) (c r : ℤ)
    (h2 : aff.a2 = 0) (h4 : aff.a4 = 0) (h1 : aff.a1 ≠ 0) (h5 : aff.a5 ≠ 0) :
    chipul ⟨aff.a0 + c * aff.a1, aff.a3 + r * aff.a5⟩ aff =
      ⟨aff.a0 + c * aff.a1, aff.a3 + r * aff.a5⟩ := by
  have hc : ((⟨aff.a0 + c * aff.a1, aff.a3 + r * aff.a5⟩ : GeoCoordinate).x
      - aff.a0 - aff.a3 * aff.a2) / aff.a1 = (c : ℚ) := by
    rw [h2]
    field_simp
  have hr : ((⟨aff.a0 + c * aff.a1, aff.a3 + r * aff.a5⟩ : GeoCoordinate).y
      - aff.a3 - aff.a0 * aff.a4) / aff.a5 = (r : ℚ) := by
    rw [h4]
    field_simp
  unfold chipul transform_geo transform_rc
  simp only [hc, hr, truncQ_intCast]
  rw [h2, h4]
  simp only [mul_zero, zero_mul, add_zero]

/-- C4: for every zero-rotation affine with nonzero scales and every
pixel-boundary coordinate (a0 + k*a1, a3 + m*a5) with k, m : ℕ,
`transform_rc (transform_geo coord affine) affine` returns the coordinate
exactly — the two transforms are mutual inverses there. -/
theorem transform_inverse_on_boundary (affine : GeoAffine) (k m : ℕ)
    (h2 : affine.a2 = 0) (h4 : affine.a4 = 0)
    (h1 : affine.a1 ≠ 0) (h5 : affine.a5 ≠ 0) :
    transform_rc
        (transform_geo ⟨affine.a0 + k * affine.a1, affine.a3 + m * affine.a5⟩ affine)
        affine =
      ⟨affine.a0 + k * affine.a1, affine.a3 + m * affine.a5⟩ := by
  have hfix := chipul_fixed_point affine k m h2 h4 h1 h5
  unfold chipul at hfix
  push_cast at hfix ⊢
  exact hfix

/-- Witness for C4: the ARD tile affine (-1815585, 30, 0, 3014805, 0, -30) and
the pixel corner two columns right and three rows down of the origin. -/
theorem transform_inverse_on_boundary_witness :
    transform_rc
        (transform_geo ⟨-1815585 + ((2 : ℕ) : ℚ) * 30, 3014805 + ((3 : ℕ) : ℚ) * (-30)⟩
          ⟨-1815585, 30, 0, 3014805, 0, -30⟩)
        ⟨-1815585, 30, 0, 3014805, 0, -30⟩ =
      ⟨-1815585 + ((2 : ℕ) : ℚ) * 30, 3014805 + ((3 : ℕ) : ℚ) * (-30)⟩ :=
  transform_inverse_on_boundary ⟨-1815585, 30, 0, 3014805, 0, -30⟩ 2 3 rfl rfl
    (by norm_num) (by norm_num)

/-- C10: for every zero-rotation affine with nonzero scales, `chipul` is
idempotent: snapping an already-snapped coordinate changes nothing. -/
theorem chipul_idempotent (coord : GeoCoordinate) (aff : GeoAffine)
    (h2 : aff.a2 = 0) (h4 : aff.a4 = 0) (h1 : aff.a1 ≠ 0) (h5 : aff.a5 ≠ 0) :
    chipul (chipul coord aff) aff = chipul coord aff := by
  have hrep : chipul coord aff =
      ⟨aff.a0 + (transform_geo coord aff).column * aff.a1,
       aff.a3 + (transform_geo coord aff).row * aff.a5⟩ := by
    unfold chipul transform_rc
    rw [h2, h4]
    simp only [mul_zero, zero_mul, add_zero]
  rw [hrep]
  exact chipul_fixed_point aff _ _ h2 h4 h1 h5

/-- Witness for C10: idempotence of the chip snap at the chip affine
(-2565585, 3000, 0, 3314805, 0, -3000) and the test coordinate. -/
theorem chipul_idempotent_witness :
    chipul (chipul ⟨-1701195, 3005565⟩ ⟨-2565585, 3000, 0, 3314805, 0, -3000⟩)
        ⟨-2565585, 3000, 0, 3314805, 0, -3000⟩ =
      chipul ⟨-1701195, 3005565⟩ ⟨-2565585, 3000, 0, 3314805, 0, -3000⟩ :=
  chipul_idempotent ⟨-1701195, 3005565⟩ ⟨-2565585, 3000, 0, 3314805, 0, -3000⟩
    rfl rfl (by norm_num) (by norm_num)

/-! Embedding of the runtime-type dispatch in `split_extent` / `transform_ext`.
Python is dynamically typed: the argument may be a `GeoExtent`, a
`RowColumnExtent`, or any other value (modelled as an untyped tuple of
numbers); `isinstance` checks select the branch and anything else raises
`TypeError`. -/

/-- A Python value passed as the `extent` argument: one of the two known
extent shapes, or any other value (e.g. a plain tuple). -/
inductive ExtentArg where
  | geo (e : GeoExtent)
  | rc (e : RowColumnExtent)
  | other (vals : List ℚ)
deriving DecidableEq

/-- The Python exceptions raised by the embedded fragment. -/
inductive PyErr where
  | typeError
deriving DecidableEq

/-- Result of `split_extent`: a pair of GeoCoordinates or a pair of RowColumns,
matching the coordinate space of the input extent. -/
inductive SplitPair where
  | geoPair (ul lr : GeoCoordinate)
  | rcPair (ul lr : RowColumn)
deriving DecidableEq

/-- Result of `transform_ext`: the extent re-assembled in the opposite space. -/
inductive TransformedExtent where
  | geoE (e : GeoExtent)
  | rcE (e : RowColumnExtent)
deriving DecidableEq

/-- `split_extent(extent)`: `isinstance(extent, GeoExtent)` selects
`GeoCoordinate`, `isinstance(extent, RowColumnExtent)` selects `RowColumn`,
anything else raises `TypeError`; returns
`t(extent[0], extent[1]), t(extent[2], extent[3])`. -/
def split_extent : ExtentArg → Except PyErr SplitPair
  | .geo e => .ok (.geoPair ⟨e.xmin, e.ymax⟩ ⟨e.xmax, e.ymin⟩)
  | .rc e => .ok (.rcPair ⟨e.st_row, e.st_col⟩ ⟨e.end_row, e.end_col⟩)
  | .other _ => .error .typeError

/-- `transform_ext(extent, affine)`: dispatches on the runtime type like
`split_extent`, maps `transform_geo` (resp. `transform_rc`) over the two
corners from `split_extent` and chains them into the opposite extent type;
raises `TypeError` on any other input. -/
def transform_ext (extent : ExtentArg) (affine : GeoAffine) :
    Except PyErr TransformedExtent :=
  match extent with
  | .geo _ =>
    match split_extent extent with
    | .ok (.geoPair ul lr) =>
      let a := transform_geo ul affine
      let b := transform_geo lr affine
      .ok (.rcE ⟨a.row, a.column, b.row, b.column⟩)
    | _ => .error .typeError
  | .rc _ =>
    match split_extent extent with
    | .ok (.rcPair ul lr) =>
      let a := transform_rc ul affine
      let b := transform_rc lr affine
      .ok (.geoE ⟨a.x, a.y, b.x, b.y⟩)
    | _ => .error .typeError
  | .other _ => .error .typeError

/-- C9: on any input that is neither a GeoExtent nor a RowColumnExtent both
`split_extent` and `transform_ext` raise `TypeError` (never a silent coercion);
on a GeoExtent, `split_extent` returns the corners (extent[0], extent[1]) and
(extent[2], extent[3]) as GeoCoordinates, and on a RowColumnExtent as
RowColumn pairs, preserving the coordinate-space type. -/
theorem split_extent_dispatch :
    (∀ (vals : List ℚ) (aff : GeoAffine),
        split_extent (.other vals) = .error .typeError ∧
        transform_ext (.other vals) aff = .error .typeError) ∧
    (∀ e : GeoExtent,
        split_extent (.geo e) = .ok (.geoPair ⟨e.xmin, e.ymax⟩ ⟨e.xmax, e.ymin⟩)) ∧
    (∀ e : RowColumnExtent,
        split_extent (.rc e) =
          .ok (.rcPair ⟨e.st_row, e.st_col⟩ ⟨e.end_row, e.end_col⟩)) :=
  ⟨fun _ _ => ⟨rfl, rfl⟩, fun _ => rfl, fun _ => rfl⟩

/-! Embedding of the filename-driven catalog functions.  Python strings are
modelled as `List Char`; `os.listdir` is external, so `tarfiles` takes the
directory listing as an argument in place of the path.  Operations that can
raise (`int(...)` on a non-numeric string, indexing a too-short field list,
unpacking a split that does not have exactly two parts) return `Option`. -/

/-- Python string, as a list of characters. -/
abbrev Str := List Char

/-- Python `s.split(sep)` for a single-character separator: splits at every
occurrence, keeping empty parts (`"".split('_') == [""]`). -/
def splitOnChar (c : Char) : Str → List Str
  | [] => [[]]
  | ch :: rest =>
    match splitOnChar c rest with
    | [] => [[]]
    | f :: r => if ch = c then [] :: f :: r else (ch :: f) :: r

/-- Python `s.replace(c, '')`: removes every occurrence of the character. -/
def pyRemoveAll (c : Char) (s : Str) : Str :=
  s.filter (fun ch => ch != c)

/-- Python `s[:-n]`. -/
def pyDropLast (n : ℕ) (s : Str) : Str :=
  s.take (s.length - n)

/-- Python `s[-n:]`. -/
def pyTakeLast (n : ℕ) (s : Str) : Str :=
  s.drop (s.length - n)

/-- Numeric value of a decimal digit character, `none` otherwise. -/
def digitVal (c : Char) : Option ℕ :=
  if c.isDigit then some (c.toNat - 48) else none

/-- Parses a non-empty all-digit string into a natural number. -/
def parseDigits : Str → Option ℕ
  | [] => none
  | s => go 0 s
where
  go (acc : ℕ) : Str → Option ℕ
    | [] => some acc
    | c :: rest =>
      match digitVal c with
      | some d => go (acc * 10 + d) rest
      | none => none

/-- Python `int(s)` on a string: an optional sign followed by decimal digits;
raises (here: `none`) on anything else. -/
def pyInt (s : Str) : Option ℤ :=
  match s with
  | '-' :: rest => (parseDigits rest).map (fun n => -(n : ℤ))
  | '+' :: rest => (parseDigits rest).map (fun n => (n : ℤ))
  | _ => (parseDigits s).map (fun n => (n : ℤ))

/-- `class ARDattributes(NamedTuple)`. -/
structure ARDattributes where
  sensor : Str
  region : Str
  h : ℤ
  v : ℤ
  acqdate : ℤ
  procdate : ℤ
  collec : Str
  version : Str
  contents : Str
deriving DecidableEq

/-- `filenameattr(filename)`: `attributes = filename[:-4].split('_')`,
`h = attributes[2][:3]`, `v = attributes[2][-3:]`, then
`ARDattributes(attributes[0], attributes[1], int(h), int(v),
int(attributes[3]), int(attributes[4]), attributes[5], attributes[6],
attributes[7])`; any failed index or int conversion raises. -/
def filenameattr (filename : Str) : Option ARDattributes := do
  let attributes := splitOnChar '_' (pyDropLast 4 filename)
  let a2 ← attributes[2]?
  let h := a2.take 3
  let v := pyTakeLast 3 a2
  let s0 ← attributes[0]?
  let s1 ← attributes[1]?
  let hn ← pyInt h
  let vn ← pyInt v
  let a3 ← attributes[3]?
  let acq ← pyInt a3
  let a4 ← attributes[4]?
  let procn ← pyInt a4
  let s5 ← attributes[5]?
  let s6 ← attributes[6]?
  let s7 ← attributes[7]?
  pure ⟨s0, s1, hn, vn, acq, procn, s5, s6, s7⟩

/-- `filter_date(filename, dates)`: `fr, to = dates.replace('-', '').split('/')`
(exactly two parts or a raise), then `int(fr) <= acq <= int(to)` with Python's
chained-comparison short circuit (the upper bound is only parsed when the
lower comparison holds). -/
def filter_date (filename : Str) (dates : Str) : Option Bool := do
  match splitOnChar '/' (pyRemoveAll '-' dates) with
  | [fr, t] =>
    let attrs ← filenameattr filename
    let frn ← pyInt fr
    if frn ≤ attrs.acqdate then do
      let tn ← pyInt t
      pure (decide (attrs.acqdate ≤ tn))
    else
      pure false
  | _ => none

/-- `filter_tar(filename, tar) = filename.endswith('{}.tar'.format(tar))`. -/
def filter_tar (filename : Str) (tar : Str) : Bool :=
  (tar ++ ".tar".data).isSuffixOf filename

/-- `filter_reg(filename, region) = (filenameattr(filename).region == region)`. -/
def filter_reg (filename : Str) (region : Str) : Option Bool := do
  let attrs ← filenameattr filename
  pure (decide (attrs.region = region))

/-- `filters(acquired, region, tar)`: the three partial applications, in source
order date / tar / region. -/
def filters (acquired : Str) (region : Str) (tar : Str) : List (Str → Option Bool) :=
  [fun x => filter_date x acquired,
   fun x => pure (filter_tar x tar),
   fun x => filter_reg x region]

/-- Python `all(f(x) for f in fs)`: evaluates the predicates left to right and
stops at the first `False` (so a later predicate's exception is not raised). -/
def pyAll (fs : List (Str → Option Bool)) (x : Str) : Option Bool :=
  match fs with
  | [] => some true
  | f :: rest => do
    let b ← f x
    if b then pyAll rest x else pure false

/-- Option-valued filtering: the list comprehension
`[x for x in listing if all(f(x) for f in fs)]`, aborting on a raise. -/
def filterOpt (p : Str → Option Bool) : List Str → Option (List Str)
  | [] => some []
  | x :: xs => do
    let b ← p x
    let rest ← filterOpt p xs
    pure (if b then x :: rest else rest)

/-- `tarfiles(path, acquired, region, tar)`: filters the directory listing by
the three predicates.  `dirlisting(path)` (`os.listdir`) is external, so the
listing is passed in its place. -/
def tarfiles (listing : List Str) (acquired : Str) (region : Str) (tar : Str) :
    Option (List Str) :=
  filterOpt (fun x => pyAll (filters acquired region tar) x) listing

/-! Lemmas about `splitOnChar` on strings assembled from separator-free fields. -/

theorem splitOnChar_ne_nil (c : Char) (s : Str) : splitOnChar c s ≠ [] := by
  cases s with
  | nil => simp [splitOnChar]
  | cons ch rest =>
    cases h : splitOnChar c rest with
    | nil => simp [splitOnChar, h]
    | cons f r => by_cases hc : ch = c <;> simp [splitOnChar, h, hc]

theorem splitOnChar_not_mem {c : Char} {s : Str} (h : c ∉ s) : splitOnChar c s = [s] := by
  induction s with
  | nil => rfl
  | cons ch rest ih =>
    have h1 : ch ≠ c := fun hh => h (by simp [hh])
    have h2 : c ∉ rest := fun hh => h (List.mem_cons_of_mem _ hh)
    simp [splitOnChar, ih h2, if_neg h1]

theorem splitOnChar_append_cons (c : Char) {a : Str} (ha : c ∉ a) (b : Str) :
    splitOnChar c (a ++ c :: b) = a :: splitOnChar c b := by
  induction a with
  | nil =>
    cases hsb : splitOnChar c b with
    | nil => exact absurd hsb (splitOnChar_ne_nil c b)
    | cons f r => simp [splitOnChar, hsb]
  | cons ch a' ih =>
    have h1 : ch ≠ c := fun hh => ha (by simp [hh])
    have h2 : c ∉ a' := fun hh => ha (List.mem_cons_of_mem _ hh)
    simp only [List.cons_append, splitOnChar, List.append_eq, ih h2, if_neg h1]

/-- Interspersion of fields with the underscore separator (what a well-formed
source filename looks like before the suffix). -/
def joinUnderscore : List Str → Str
  | [] => []
  | [s] => s
  | s :: rest => s ++ '_' :: joinUnderscore rest

theorem splitOnChar_joinUnderscore :
    ∀ fields : List Str, fields ≠ [] → (∀ s ∈ fields, '_' ∉ s) →
      splitOnChar '_' (joinUnderscore fields) = fields
  | [], h, _ => absurd rfl h
  | [s], _, hmem => splitOnChar_not_mem (hmem s (by simp))
  | s :: s' :: rest, _, hmem => by
    have hstep : joinUnderscore (s :: s' :: rest) = s ++ '_' :: joinUnderscore (s' :: rest) := rfl
    rw [hstep, splitOnChar_append_cons _ (hmem s (by simp)),
        splitOnChar_joinUnderscore (s' :: rest) (by simp)
          (fun u hu => hmem u (List.mem_cons_of_mem _ hu))]

theorem pyDropLast_append (a b : Str) (n : ℕ) (h : b.length = n) :
    pyDropLast n (a ++ b) = a := by
  unfold pyDropLast
  rw [List.length_append, h, Nat.add_sub_cancel, List.take_left]

/-- C8: a well-formed filename — eight underscore-delimited fields followed by
a 4-character suffix — is parsed positionally: sensor = field 0, region =
field 1, h = int of the first 3 characters of field 2, v = int of the last 3
characters of field 2, acquisition date = int of field 3, processing date =
int of field 4, collection = field 5, version = field 6, content type = field 7. -/
theorem filenameattr_positional (f0 f1 f2 f3 f4 f5 f6 f7 sfx : Str)
    (hval vval acq procd : ℤ)
    (hmem : ∀ s ∈ [f0, f1, f2, f3, f4, f5, f6, f7], '_' ∉ s)
    (hsfx : sfx.length = 4)
    (hh : pyInt (f2.take 3) = some hval)
    (hv : pyInt (pyTakeLast 3 f2) = some vval)
    (hacq : pyInt f3 = some acq)
    (hproc : pyInt f4 = some procd) :
    filenameattr (joinUnderscore [f0, f1, f2, f3, f4, f5, f6, f7] ++ sfx) =
      some ⟨f0, f1, hval, vval, acq, procd, f5, f6, f7⟩ := by
  unfold filenameattr
  rw [pyDropLast_append _ _ _ hsfx,
      splitOnChar_joinUnderscore [f0, f1, f2, f3, f4, f5, f6, f7] (by simp) hmem]
  simp [hh, hv, hacq, hproc]

/-- Witness for C8: the filename from the repository's test suite. -/
theorem filenameattr_positional_witness :
    filenameattr ("LT05_CU_005002_19850302_20170711_C01_V01_SR.tar").data =
      some ⟨"LT05".data, "CU".data, 5, 2, 19850302, 20170711,
            "C01".data, "V01".data, "SR".data⟩ := by
  have h := filenameattr_positional "LT05".data "CU".data "005002".data
      "19850302".data "20170711".data "C01".data "V01".data "SR".data ".tar".data
      5 2 19850302 20170711 (by decide) (by decide) (by decide) (by decide)
      (by decide) (by decide)
  exact h

/-! Evaluation lemmas for the catalog predicates under well-formed inputs. -/

theorem filter_date_eval {x : Str} {a : ARDattributes} (hx : filenameattr x = some a)
    {acquired fr t : Str} {frn tn : ℤ}
    (hsp : splitOnChar '/' (pyRemoveAll '-' acquired) = [fr, t])
    (hfr : pyInt fr = some frn) (ht : pyInt t = some tn) :
    filter_date x acquired = some (decide (frn ≤ a.acqdate ∧ a.acqdate ≤ tn)) := by
  unfold filter_date
  rw [hsp]
  by_cases hle : frn ≤ a.acqdate
  · simp [hx, hfr, ht, hle]
  · simp [hx, hfr, ht, hle]

theorem filter_reg_eval {x : Str} {a : ARDattributes} (hx : filenameattr x = some a)
    (region : Str) :
    filter_reg x region = some (decide (a.region = region)) := by
  simp [filter_reg, hx]

theorem pyAll_filters_eval {x : Str} {a : ARDattributes} (hx : filenameattr x = some a)
    {acquired fr t : Str} {frn tn : ℤ}
    (hsp : splitOnChar '/' (pyRemoveAll '-' acquired) = [fr, t])
    (hfr : pyInt fr = some frn) (ht : pyInt t = some tn) (region tar : Str) :
    pyAll (filters acquired region tar) x =
      some ((filter_date x acquired).getD false && filter_tar x tar &&
        (filter_reg x region).getD false) := by
  have hd := filter_date_eval hx hsp hfr ht
  have hr := filter_reg_eval hx region
  cases hb1 : decide (frn ≤ a.acqdate ∧ a.acqdate ≤ tn) <;>
    cases hb2 : filter_tar x tar <;>
    cases hb3 : decide (a.region = region) <;>
    simp [pyAll, filters, hd, hr, hb1, hb2, hb3]

theorem filterOpt_eval {p : Str → Option Bool} {q : Str → Bool} :
    ∀ {l : List Str}, (∀ x ∈ l, p x = some (q x)) → filterOpt p l = some (l.filter q) := by
  intro l
  induction l with
  | nil => intro _; rfl
  | cons x xs ih =>
    intro h
    have hx := h x (List.mem_cons_self x xs)
    have hxs := ih (fun y hy => h y (List.mem_cons_of_mem _ hy))
    cases hq : q x <;> simp [filterOpt, hx, hxs, List.filter_cons, hq]

/-- C7: under a well-formed date range and a listing of parseable filenames,
`tarfiles` returns exactly the filenames of the listing, in listing order, for
which the date, content-type and region predicates all hold; the conjunction
is order-independent; the date predicate holds iff the parsed acquisition date
lies inclusively between the dash-stripped bounds; and for the CU/SR test
filename with acquisition date 19850302 the date predicate is true for
"1984-01-01/1985-03-02" and false for "1985-03-03/1987-01-01". -/
theorem tarfiles_conjunction
    (listing : List Str) (acquired region tar : Str) (fr t : Str) (frn tn : ℤ)
    (hsp : splitOnChar '/' (pyRemoveAll '-' acquired) = [fr, t])
    (hfr : pyInt fr = some frn) (ht : pyInt t = some tn)
    (hfiles : ∀ x ∈ listing, (filenameattr x).isSome) :
    tarfiles listing acquired region tar =
      some (listing.filter (fun x =>
        (filter_date x acquired).getD false && filter_tar x tar &&
          (filter_reg x region).getD false)) ∧
    listing.filter (fun x =>
        (filter_date x acquired).getD false && filter_tar x tar &&
          (filter_reg x region).getD false) =
      listing.filter (fun x =>
        (filter_reg x region).getD false && filter_tar x tar &&
          (filter_date x acquired).getD false) ∧
    (∀ x ∈ listing, ∀ a, filenameattr x = some a →
        filter_date x acquired = some (decide (frn ≤ a.acqdate ∧ a.acqdate ≤ tn))) ∧
    filter_date ("LT05_CU_005002_19850302_20170711_C01_V01_SR.tar").data
        ("1984-01-01/1985-03-02").data = some true ∧
    filter_date ("LT05_CU_005002_19850302_20170711_C01_V01_SR.tar").data
        ("1985-03-03/1987-01-01").data = some false := by
  refine ⟨?_, ?_, ?_, by decide, by decide⟩
  · apply filterOpt_eval
    intro x hx
    obtain ⟨a, ha⟩ := Option.isSome_iff_exists.mp (hfiles x hx)
    exact pyAll_filters_eval ha hsp hfr ht region tar
  · apply List.filter_congr
    intro x _
    cases (filter_date x acquired).getD false <;> cases filter_tar x tar <;>
      cases (filter_reg x region).getD false <;> rfl
  · intro x _ a ha
    exact filter_date_eval ha hsp hfr ht

/-- Witness for C7: the test-suite listing with one SR and one BT tarball;
only the SR file survives the filters. -/
theorem tarfiles_conjunction_witness :
    tarfiles [("LT05_CU_005002_19850302_20170711_C01_V01_SR.tar").data,
              ("LT05_CU_005002_19850302_20170711_C01_V01_BT.tar").data]
        ("1980-01-01/2014-01-01").data ("CU").data ("SR").data =
      some [("LT05_CU_005002_19850302_20170711_C01_V01_SR.tar").data] := by
  have h := (tarfiles_conjunction
      [("LT05_CU_005002_19850302_20170711_C01_V01_SR.tar").data,
       ("LT05_CU_005002_19850302_20170711_C01_V01_BT.tar").data]
      ("1980-01-01/2014-01-01").data ("CU").data ("SR").data
      ("19800101").data ("20140101").data 19800101 20140101
      (by decide) (by decide) (by decide) (by decide)).1
  rw [h]
  decide

end Changify
